import Mathlib

/-!
Shallow embedding of the expression subsystem declared in `src/expr.h`
(the expression AST of the ispc SPMD compiler): constant values and their
conversion accessors, the expression node hierarchy, the `Optimize` and
`TypeCheck` passes, and function overload resolution.

The repository provides only the interface header `expr.h`; the method
bodies live in a translation unit that is not part of the sources here.
Definitions whose doc comment starts with `Modelled from the spec:` embed
the behavior of such a missing body, following the natural-language
specification wording; everything else (class fields, enum tags, method
signatures) is translated directly from `expr.h`.

Modelling conventions:
- machine integers are `Int` with explicit wraparound (`wrapU` / `wrapS`);
- C++ `bool` lanes are stored as `Int` values `0` / `1`;
- `float` / `double` lane representations are not embedded (floating point);
- a method returning a pointer that may be `NULL` on failure becomes
  `Option` (for `Optimize`) or `Except String` (for `TypeCheck`, where the
  error string models the diagnostic emitted at the point of failure);
- the target vector width (`g->target.vectorWidth`, bounded by
  `ISPC_MAX_NVEC` in the header) is fixed at 4.
-/

/-- Fixed target vector width used for varying values (model of
`g->target.vectorWidth`; the header bounds it by `ISPC_MAX_NVEC`). -/
def targetVectorWidth : Nat := 4

/-- Basic representations a `ConstExpr` can hold, mirroring the member
arrays of the union in `ConstExpr` (`boolVal`, `int8Val`, ..., `uint64Val`).
The `floatVal` / `doubleVal` members are not embedded (floating point). -/
inductive BasicType where
  | bool
  | int8
  | uint8
  | int16
  | uint16
  | int32
  | uint32
  | int64
  | uint64
deriving DecidableEq

/-- Bit width of each representation. -/
def BasicType.bits : BasicType → Nat
  | .bool => 1
  | .int8 | .uint8 => 8
  | .int16 | .uint16 => 16
  | .int32 | .uint32 => 32
  | .int64 | .uint64 => 64

/-- Whether the representation is a signed integer type. -/
def BasicType.signed : BasicType → Bool
  | .int8 | .int16 | .int32 | .int64 => true
  | _ => false

/-- Whether the representation is a (signed or unsigned) integer type. -/
def BasicType.isIntType : BasicType → Bool
  | .bool => false
  | _ => true

/-- Wrap an integer into the unsigned range `[0, 2^b)` (fixed-width
unsigned wraparound). -/
def wrapU (b : Nat) (x : Int) : Int := x % (2 ^ b : Int)

/-- Wrap an integer into the signed range `[-2^(b-1), 2^(b-1))` (twos-complement wraparound). -/
def wrapS (b : Nat) (x : Int) : Int :=
  (x + 2 ^ (b - 1)) % (2 ^ b : Int) - 2 ^ (b - 1)

/-- Normalize an integer into the value set of a representation: booleans
collapse to 0/1 (C++ `bool` conversion), integers wrap per fixed-width
unsigned/signed rules. -/
def wrap (bt : BasicType) (x : Int) : Int :=
  match bt with
  | .bool => if x = 0 then 0 else 1
  | _ => if bt.signed then wrapS bt.bits x else wrapU bt.bits x

/-- Uniform (one shared instance) versus varying (one instance per lane). -/
inductive Variability where
  | uniform
  | varying
deriving DecidableEq

/-- Number of lanes a value of the given variability holds: 1 if uniform,
the target vector width if varying. -/
def Variability.laneCount : Variability → Nat
  | .uniform => 1
  | .varying => targetVectorWidth

/-- Model of the `ConstExpr` payload: its atomic type (basic representation
plus variability, modelling the `type` member) and the lane values of the
active union member.  Exactly one representation is meaningful, selected by
`bt`; lane values are stored normalized (`wrap bt`). -/
structure ConstExpr where
  bt : BasicType
  v : Variability
  lanes : List Int
deriving DecidableEq

/-- Whether a `ConstExpr` is well formed: the lane count matches its
variability and every stored lane is normalized for its representation. -/
def ConstExpr.wf (c : ConstExpr) : Bool :=
  c.lanes.length == c.v.laneCount && c.lanes.all (fun x => wrap c.bt x == x)

/-- Modelled from the spec: the common core of the `ConstExpr::As*`
conversion accessors (bodies not in `src/`).  Converts the stored lanes to
the requested representation using the fixed wraparound/truncation rules,
and, when `forceVarying` is set on a uniform value, broadcasts the single
lane to the target vector width. -/
def ConstExpr.convertLanes (c : ConstExpr) (toBT : BasicType)
    (forceVarying : Bool) : List Int :=
  let vals := c.lanes.map (wrap toBT)
  if forceVarying && c.v == .uniform then
    List.replicate targetVectorWidth (vals.headD 0)
  else vals

/-- Modelled from the spec: `ConstExpr::AsBool` (body not in `src/`). -/
def ConstExpr.AsBool (c : ConstExpr) (forceVarying : Bool) : List Int :=
  c.convertLanes .bool forceVarying

/-- Modelled from the spec: `ConstExpr::AsInt8` (body not in `src/`). -/
def ConstExpr.AsInt8 (c : ConstExpr) (forceVarying : Bool) : List Int :=
  c.convertLanes .int8 forceVarying

/-- Modelled from the spec: `ConstExpr::AsUInt8` (body not in `src/`). -/
def ConstExpr.AsUInt8 (c : ConstExpr) (forceVarying : Bool) : List Int :=
  c.convertLanes .uint8 forceVarying

/-- Modelled from the spec: `ConstExpr::AsInt16` (body not in `src/`). -/
def ConstExpr.AsInt16 (c : ConstExpr) (forceVarying : Bool) : List Int :=
  c.convertLanes .int16 forceVarying

/-- Modelled from the spec: `ConstExpr::AsUInt16` (body not in `src/`). -/
def ConstExpr.AsUInt16 (c : ConstExpr) (forceVarying : Bool) : List Int :=
  c.convertLanes .uint16 forceVarying

/-- Modelled from the spec: `ConstExpr::AsInt32` (body not in `src/`). -/
def ConstExpr.AsInt32 (c : ConstExpr) (forceVarying : Bool) : List Int :=
  c.convertLanes .int32 forceVarying

/-- Modelled from the spec: `ConstExpr::AsUInt32` (body not in `src/`). -/
def ConstExpr.AsUInt32 (c : ConstExpr) (forceVarying : Bool) : List Int :=
  c.convertLanes .uint32 forceVarying

/-- Modelled from the spec: `ConstExpr::AsInt64` (body not in `src/`). -/
def ConstExpr.AsInt64 (c : ConstExpr) (forceVarying : Bool) : List Int :=
  c.convertLanes .int64 forceVarying

/-- Modelled from the spec: `ConstExpr::AsUInt64` (body not in `src/`). -/
def ConstExpr.AsUInt64 (c : ConstExpr) (forceVarying : Bool) : List Int :=
  c.convertLanes .uint64 forceVarying

/-- Number of values in the `ConstExpr` (`ConstExpr::Count`). -/
def ConstExpr.Count (c : ConstExpr) : Nat := c.lanes.length

/-- Model of the external `Type` hierarchy at the granularity the core
consults: atomic types (representation plus variability), pointers,
references, fixed-size arrays and `void`.  Struct, vector and function
types are not needed by the claims and are left out of the model. -/
inductive Ty where
  | atomic (bt : BasicType) (v : Variability)
  | pointer (v : Variability) (elt : Ty)
  | reference (elt : Ty)
  | array (elt : Ty) (size : Nat)
  | void
deriving DecidableEq

/-- Whether a type can absorb a null-pointer literal: any pointer or
reference type (spec: "convertible to any pointer/reference type"). -/
def Ty.isPointerCompatible : Ty → Bool
  | .pointer _ _ => true
  | .reference _ => true
  | _ => false

/-- Lane count of a value of the given type (pointers follow their
variability; references and aggregates are uniform in the model). -/
def Ty.laneCount : Ty → Nat
  | .atomic _ v => v.laneCount
  | .pointer v _ => v.laneCount
  | _ => 1

/-- Join of two variabilities: varying wins over uniform. -/
def Variability.join (a b : Variability) : Variability :=
  match a, b with
  | .uniform, .uniform => .uniform
  | _, _ => .varying

/-- Promotion of two basic representations per the fixed lattice of the
spec: larger bit width wins; at equal width, unsigned wins; `bool`
promotes to the representation of the other operand. -/
def BasicType.promote (a b : BasicType) : BasicType :=
  match a, b with
  | .bool, other => other
  | other, .bool => other
  | _, _ =>
    if a.bits < b.bits then b
    else if b.bits < a.bits then a
    else if a.signed then b else a

/-- Modelled from the spec: the promotion rule used by binary operator and
select type checking (bodies not in `src/`): "result type is the wider of
the two per a fixed promotion lattice (... varying over uniform, then
larger bit-width wins)".  Only atomic operand pairs promote in the model. -/
def Ty.promote (t1 t2 : Ty) : Option Ty :=
  if t1 = t2 then some t1
  else
    match t1, t2 with
    | .atomic b1 v1, .atomic b2 v2 =>
      some (.atomic (b1.promote b2) (v1.join v2))
    | _, _ => none

/-- Modelled from the spec: the legality predicate `CanConvertTypes`
declared at `expr.h:729` (body not in `src/`).  Covers the conversions the
claims exercise: numeric widening/narrowing between atomics, the
uniform-to-varying broadcast, pointer compatibility and reference
identity; the diagnostics of the full engine and remaining cases (enumerations,
aggregates) are not modelled. -/
def CanConvertTypes (fromType toType : Ty) : Bool :=
  (fromType == toType) ||
  match fromType, toType with
  | .atomic _ v1, .atomic _ v2 =>
    v1 == v2 || (v1 == .uniform && v2 == .varying)
  | .pointer v1 t1, .pointer v2 t2 =>
    t1 == t2 && (v1 == v2 || (v1 == .uniform && v2 == .varying))
  | .reference t1, .reference t2 => t1 == t2
  | _, _ => false

/-- A declared named entity with its type (external `Symbol`, referenced
not owned by the nodes). -/
structure SymbolInfo where
  name : String
  ty : Ty
deriving DecidableEq

/-- A candidate function for overload resolution: its symbol name and the
declared parameter types of its signature. -/
structure FuncSym where
  name : String
  paramTypes : List Ty
deriving DecidableEq

/-- The three progressively looser matching passes of overload resolution:
exact type match, match allowing implicit numeric/pointer conversions, and
match additionally letting a NULL-literal argument satisfy any pointer
parameter. -/
inductive MatchKind where
  | exact
  | implicit
  | implicitNull
deriving DecidableEq

/-- Whether one argument type matches one declared parameter type under
the given pass; `nullFlag` records whether the argument is the literal
zero (`argCouldBeNULL` in `expr.h:640`). -/
def paramMatches (k : MatchKind) (nullFlag : Bool) (argT paramT : Ty) :
    Bool :=
  match k with
  | .exact => decide (argT = paramT)
  | .implicit => CanConvertTypes argT paramT
  | .implicitNull =>
    CanConvertTypes argT paramT || (nullFlag && paramT.isPointerCompatible)

/-- Whether an argument type list matches a parameter type list elementwise
under the given pass.  A length mismatch fails, so parameter-count
mismatches exclude a candidate from every pass. -/
def argsMatch (k : MatchKind) :
    List Ty → List Bool → List Ty → Bool
  | [], _, [] => true
  | a :: as, flags, p :: ps =>
    paramMatches k (flags.headD false) a p && argsMatch k as flags.tail ps
  | _, _, _ => false

/-- Candidates surviving one matching pass
(`FunctionSymbolExpr::tryResolve`, modelled from the spec as a filter of
the candidate set by the match predicate of the pass). -/
def tryResolvePass (k : MatchKind) (cands : List FuncSym)
    (argTypes : List Ty) (flags : List Bool) : List FuncSym :=
  cands.filter (fun f => argsMatch k argTypes flags f.paramTypes)

/-- Outcome of overload resolution over the candidate set: a unique match,
an ambiguity (several candidates tied in one pass), or no match in any
pass. -/
inductive ResolveResult where
  | success (f : FuncSym)
  | ambiguous
  | noMatch
deriving DecidableEq

/-- Modelled from the spec: the pass-sequencing core of
`FunctionSymbolExpr::ResolveOverloads` (body not in `src/`).  Tries the
three passes in order — exact match, implicit conversions, implicit
conversions plus NULL-literal pointer arguments — stopping at the first
pass that yields exactly one candidate; a pass yielding several tied
candidates is an ambiguity error, and zero matches across all passes is a
no-match error. -/
def resolveOverloadsPure (cands : List FuncSym) (argTypes : List Ty)
    (flags : List Bool) : ResolveResult :=
  match tryResolvePass .exact cands argTypes flags with
  | [f] => .success f
  | _ :: _ :: _ => .ambiguous
  | [] =>
    match tryResolvePass .implicit cands argTypes flags with
    | [f] => .success f
    | _ :: _ :: _ => .ambiguous
    | [] =>
      match tryResolvePass .implicitNull cands argTypes flags with
      | [f] => .success f
      | _ :: _ :: _ => .ambiguous
      | [] => .noMatch

/-- Model of the `FunctionSymbolExpr` state: the called name, the full
candidate set, the memoized matching symbol (`matchingFunc`, `NULL` until
resolution succeeds) and the `triedToResolve` flag.  The constructor at
`expr.h:617` establishes `matchingFunc = none` and
`triedToResolve = false`. -/
structure FunctionSymbolExpr where
  name : String
  candidateFunctions : List FuncSym
  matchingFunc : Option FuncSym
  triedToResolve : Bool
deriving DecidableEq

/-- Model of the `FunctionSymbolExpr` constructor (`expr.h:617`): stores
the name and candidate set, with no match yet and resolution untried. -/
def FunctionSymbolExpr.make (name : String) (cands : List FuncSym) :
    FunctionSymbolExpr :=
  ⟨name, cands, none, false⟩

/-- Result of one `ResolveOverloads` call: the node state after the call,
the boolean success return value, and the number of diagnostics the call
emitted. -/
structure ResolveCall where
  state : FunctionSymbolExpr
  returned : Bool
  diagnostics : Nat
deriving DecidableEq

/-- Modelled from the spec: `FunctionSymbolExpr::ResolveOverloads`
(`expr.h:638`, body not in `src/`).  If resolution was already attempted,
returns the previously cached outcome without emitting another diagnostic;
otherwise runs the matching passes, caches the single matching symbol on
success, and on ambiguity or no-match emits one diagnostic and caches the
failure via the `triedToResolve` flag. -/
def FunctionSymbolExpr.ResolveOverloads (fse : FunctionSymbolExpr)
    (argTypes : List Ty) (flags : List Bool) : ResolveCall :=
  if fse.triedToResolve then
    ⟨fse, fse.matchingFunc.isSome, 0⟩
  else
    match resolveOverloadsPure fse.candidateFunctions argTypes flags with
    | .success f =>
      ⟨{ fse with matchingFunc := some f, triedToResolve := true }, true, 0⟩
    | .ambiguous => ⟨{ fse with triedToResolve := true }, false, 1⟩
    | .noMatch => ⟨{ fse with triedToResolve := true }, false, 1⟩

/-- The memoized matching function
(`FunctionSymbolExpr::GetMatchingFunction`, `expr.h:641`). -/
def FunctionSymbolExpr.GetMatchingFunction (fse : FunctionSymbolExpr) :
    Option FuncSym :=
  fse.matchingFunc

/-- The unary operator tags of `UnaryExpr::Op` (`expr.h:102`). -/
inductive UnaryOp where
  | PreInc
  | PreDec
  | PostInc
  | PostDec
  | Negate
  | LogicalNot
  | BitNot
deriving DecidableEq

/-- The binary operator tags of `BinaryExpr::Op` (`expr.h:129`). -/
inductive BinOp where
  | Add
  | Sub
  | Mul
  | Div
  | Mod
  | Shl
  | Shr
  | Lt
  | Gt
  | Le
  | Ge
  | Equal
  | NotEqual
  | BitAnd
  | BitXor
  | BitOr
  | LogicalAnd
  | LogicalOr
  | Comma
deriving DecidableEq

/-- The assignment operator tags of `AssignExpr::Op` (`expr.h:172`). -/
inductive AssignOp where
  | Assign
  | MulAssign
  | DivAssign
  | ModAssign
  | AddAssign
  | SubAssign
  | ShlAssign
  | ShrAssign
  | AndAssign
  | XorAssign
  | OrAssign
deriving DecidableEq

/-- The arithmetic group of binary operators (the `Add` .. `Shr` block of
the enum in `expr.h:130`). -/
def BinOp.isArith : BinOp → Bool
  | .Add | .Sub | .Mul | .Div | .Mod | .Shl | .Shr => true
  | _ => false

/-- The comparison group of binary operators (`Lt` .. `NotEqual`). -/
def BinOp.isComparison : BinOp → Bool
  | .Lt | .Gt | .Le | .Ge | .Equal | .NotEqual => true
  | _ => false

/-- Whether a binary operator participates in constant folding in the
model: every operator computes a constant lane-wise except the comma
operator (whose result is its side-effecting sequence, left unfolded). -/
def BinOp.foldable : BinOp → Bool
  | .Comma => false
  | _ => true

/-- Basic representation of the folded constant: comparison and logical
operators produce booleans of the operand width, the others keep the
operand representation. -/
def BinOp.foldResBT (op : BinOp) (bt : BasicType) : BasicType :=
  if op.isComparison || op == .LogicalAnd || op == .LogicalOr then .bool
  else bt

/-- Modelled from the spec: the per-lane computation of binary constant
folding (body of `BinaryExpr::Optimize` not in `src/`).  Each arithmetic
result is wrapped per the fixed-width rules of the operand representation;
division and modulus truncate toward zero (C semantics; a zero divisor,
undefined in the source language, yields 0 in the model); shifts use the
value of the shift count, and right shift is arithmetic on signed
representations.  Comparisons and logical operators produce 0/1 lanes. -/
def BinOp.laneOp (op : BinOp) (bt : BasicType) (x y : Int) : Int :=
  match op with
  | .Add => wrap bt (x + y)
  | .Sub => wrap bt (x - y)
  | .Mul => wrap bt (x * y)
  | .Div => wrap bt (Int.tdiv x y)
  | .Mod => wrap bt (Int.tmod x y)
  | .Shl => wrap bt (x * 2 ^ y.toNat)
  | .Shr => wrap bt (Int.fdiv x (2 ^ y.toNat))
  | .Lt => if x < y then 1 else 0
  | .Gt => if y < x then 1 else 0
  | .Le => if x ≤ y then 1 else 0
  | .Ge => if y ≤ x then 1 else 0
  | .Equal => if x = y then 1 else 0
  | .NotEqual => if x = y then 0 else 1
  | .BitAnd => wrap bt (Int.land x y)
  | .BitXor => wrap bt (Int.xor x y)
  | .BitOr => wrap bt (Int.lor x y)
  | .LogicalAnd => if x ≠ 0 ∧ y ≠ 0 then 1 else 0
  | .LogicalOr => if x ≠ 0 ∨ y ≠ 0 then 1 else 0
  | .Comma => y

/-- The lane-wise folded constant of a binary operator over two constant
operands of the same representation and variability. -/
def BinOp.foldConst (op : BinOp) (c0 c1 : ConstExpr) : ConstExpr :=
  ⟨op.foldResBT c0.bt, c0.v, List.zipWith (op.laneOp c0.bt) c0.lanes c1.lanes⟩

mutual
/-- The expression node hierarchy of `expr.h` as a closed sum: one
constructor per concrete `Expr` subclass, holding the member fields of
that subclass.  Source positions, which carry no semantics in the claims, are not
modelled.  An optional child expression (`FunctionCallExpr::launchCountExpr`,
`NewExpr::countExpr`, `NewExpr::initExpr`) is modelled as an `ExprList`
that is empty when the pointer is `NULL`. -/
inductive Expr where
  | unary (op : UnaryOp) (expr : Expr)
  | binary (op : BinOp) (arg0 arg1 : Expr)
  | assign (op : AssignOp) (lvalue rvalue : Expr)
  | select (test expr1 expr2 : Expr)
  | exprList (l : ExprList)
  | funcCall (func : Expr) (args : ExprList) (isLaunch : Bool)
      (launchCountExpr : ExprList)
  | index (baseExpr idx : Expr)
  | member (expr : Expr) (identifier : String) (dereferenceExpr : Bool)
  | constExpr (c : ConstExpr)
  | typeCast (ty : Ty) (expr : Expr)
  | reference (expr : Expr)
  | dereference (expr : Expr)
  | addressOf (expr : Expr)
  | sizeOfE (expr : Expr)
  | sizeOfT (ty : Ty)
  | symbol (s : SymbolInfo)
  | funcSymbol (fse : FunctionSymbolExpr)
  | sync
  | nullPointer
  | newExpr (allocType : Ty) (countExpr : ExprList) (initExpr : ExprList)
      (isVarying : Bool)

/-- The `ExprList` node (`expr.h:227`): an ordered, possibly empty sequence
of expressions, used for call arguments and brace initializers. -/
inductive ExprList where
  | nil
  | cons (e : Expr) (rest : ExprList)
end

/-- Model of the `llvm::Constant` a `GetConstant` override produces: the
lane values of the constant. -/
structure ConstantVal where
  lanes : List Int
deriving DecidableEq

/-- Modelled from the spec: `NullPointerExpr::GetConstant` (class at
`expr.h:679`, body not in `src/`).  For any pointer-compatible target type
the null-pointer literal folds to a zero address (one zero lane per lane
of the target type); for other types the default absence indicator of
`Expr::GetConstant` (`expr.h:81`) is returned. -/
def NullPointerExpr.GetConstant (ty : Ty) : Option ConstantVal :=
  if ty.isPointerCompatible then
    some ⟨List.replicate ty.laneCount 0⟩
  else none

/-- Modelled from the spec: the type query `Expr::GetType` for each node
kind (bodies not in `src/`), at the granularity the type-checking rules of
the claims consult.  Node kinds whose type involves unmodelled parts of
the type library (aggregates, function types, member selection) return
`none`. -/
def Expr.getType : Expr → Option Ty
  | .unary op e =>
    match op, Expr.getType e with
    | .LogicalNot, some (.atomic _ v) => some (.atomic .bool v)
    | _, t => t
  | .binary op a b =>
    match Expr.getType a, Expr.getType b with
    | some ta, some tb =>
      if op.isComparison || op == .LogicalAnd || op == .LogicalOr then
        match ta, tb with
        | .atomic _ v1, .atomic _ v2 => some (.atomic .bool (v1.join v2))
        | _, _ => none
      else if op == .Comma then some tb
      else if op == .Shl || op == .Shr then some ta
      else Ty.promote ta tb
    | _, _ => none
  | .assign _ a _ => Expr.getType a
  | .select _ a b =>
    match Expr.getType a, Expr.getType b with
    | some ta, some tb => Ty.promote ta tb
    | _, _ => none
  | .exprList _ => none
  | .funcCall _ _ _ _ => none
  | .index b i =>
    match Expr.getType b, Expr.getType i with
    | some (.array elt _), some (.atomic _ .varying) =>
      some (match elt with
            | .atomic bt _ => .atomic bt .varying
            | other => other)
    | some (.array elt _), some (.atomic _ .uniform) => some elt
    | some (.pointer _ elt), _ => some elt
    | _, _ => none
  | .member _ _ _ => none
  | .constExpr c => some (.atomic c.bt c.v)
  | .typeCast t _ => some t
  | .reference e => (Expr.getType e).map .reference
  | .dereference e =>
    match Expr.getType e with
    | some (.reference t) => some t
    | some (.pointer _ t) => some t
    | _ => none
  | .addressOf e => (Expr.getType e).map (.pointer .uniform)
  | .sizeOfE _ => some (.atomic .uint32 .uniform)
  | .sizeOfT _ => some (.atomic .uint32 .uniform)
  | .symbol s => some s.ty
  | .funcSymbol _ => none
  | .sync => some .void
  | .nullPointer => some (.pointer .uniform .void)
  | .newExpr t _ _ isVarying =>
    some (.pointer (if isVarying then .varying else .uniform) t)

/-- The constant payload of an expression that is a `ConstExpr` node,
absence otherwise (the dynamic-cast test the optimizer applies to its
optimized operands). -/
def Expr.asConst : Expr → Option ConstExpr
  | .constExpr c => some c
  | _ => none

/-- Modelled from the spec: the node-local step of `BinaryExpr::Optimize`
(`expr.h:160`, body not in `src/`), applied after the operands have been
optimized: when both operands are constants of the same representation and
variability and the operator folds, the node is replaced by the lane-wise
computed constant; otherwise the node is rebuilt unchanged. -/
def Expr.optBinary (op : BinOp) (a b : Expr) : Expr :=
  match Expr.asConst a, Expr.asConst b with
  | some c0, some c1 =>
    if op.foldable && c0.bt == c1.bt && c0.v == c1.v then
      .constExpr (op.foldConst c0 c1)
    else .binary op a b
  | _, _ => .binary op a b

/-- Modelled from the spec: the node-local step of `SelectExpr::Optimize`
(`expr.h:213`, body not in `src/`), applied after the children have been
optimized: a uniform compile-time-constant boolean condition selects the
corresponding branch outright, discarding the other; otherwise the node is
rebuilt unchanged. -/
def Expr.optSelect (test a b : Expr) : Expr :=
  match Expr.asConst test with
  | some c =>
    if c.bt == .bool && c.v == .uniform then
      if c.lanes.headD 0 != 0 then a else b
    else .select test a b
  | none => .select test a b

/-- Modelled from the spec: constant folding of a type cast (body of
`TypeCastExpr::Optimize` not in `src/`): a constant child folds through a
cast to an atomic type of the same variability (converting the lanes with
the conversion rules of the constant) or to a varying atomic type from a
uniform constant (broadcast); other casts are left in place. -/
def castFoldConst (t : Ty) (c : ConstExpr) : Option ConstExpr :=
  match t with
  | .atomic bt v =>
    if c.v == v then some ⟨bt, v, c.convertLanes bt false⟩
    else if c.v == .uniform && v == .varying then
      some ⟨bt, v, c.convertLanes bt true⟩
    else none
  | _ => none

/-- Modelled from the spec: the node-local step of `TypeCastExpr::Optimize`
(`expr.h:505`, body not in `src/`). -/
def Expr.optCast (t : Ty) (e : Expr) : Expr :=
  match Expr.asConst e with
  | some c =>
    match castFoldConst t c with
    | some c2 => .constExpr c2
    | none => .typeCast t e
  | none => .typeCast t e

mutual
/-- Modelled from the spec: the `Optimize` pass (`Expr::Optimize`,
`expr.h:87`; bodies not in `src/`).  Each node optimizes its children and
then applies its node-local simplification: binary nodes fold two constant
operands of identical representation lane-wise, select nodes with a
uniform constant boolean condition are replaced by the corresponding
branch, type casts of constants fold through the conversion
rules, and every other node kind returns itself with optimized children
(identity when no simplification applies).  A failure (`NULL` in the
source, `none` here) is propagated from children; no node-local step
introduces one. -/
def Expr.Optimize : Expr → Option Expr
  | .unary op e =>
    (Expr.Optimize e).bind fun e2 => some (.unary op e2)
  | .binary op a b =>
    (Expr.Optimize a).bind fun a2 =>
      (Expr.Optimize b).bind fun b2 => some (Expr.optBinary op a2 b2)
  | .assign op a b =>
    (Expr.Optimize a).bind fun a2 =>
      (Expr.Optimize b).bind fun b2 => some (.assign op a2 b2)
  | .select t a b =>
    (Expr.Optimize t).bind fun t2 =>
      (Expr.Optimize a).bind fun a2 =>
        (Expr.Optimize b).bind fun b2 => some (Expr.optSelect t2 a2 b2)
  | .exprList l => (ExprList.Optimize l).bind fun l2 => some (.exprList l2)
  | .funcCall f args isLaunch lc =>
    (Expr.Optimize f).bind fun f2 =>
      (ExprList.Optimize args).bind fun args2 =>
        (ExprList.Optimize lc).bind fun lc2 =>
          some (.funcCall f2 args2 isLaunch lc2)
  | .index b i =>
    (Expr.Optimize b).bind fun b2 =>
      (Expr.Optimize i).bind fun i2 => some (.index b2 i2)
  | .member e ident deref =>
    (Expr.Optimize e).bind fun e2 => some (.member e2 ident deref)
  | .constExpr c => some (.constExpr c)
  | .typeCast t e =>
    (Expr.Optimize e).bind fun e2 => some (Expr.optCast t e2)
  | .reference e => (Expr.Optimize e).bind fun e2 => some (.reference e2)
  | .dereference e =>
    (Expr.Optimize e).bind fun e2 => some (.dereference e2)
  | .addressOf e => (Expr.Optimize e).bind fun e2 => some (.addressOf e2)
  | .sizeOfE e => (Expr.Optimize e).bind fun e2 => some (.sizeOfE e2)
  | .sizeOfT t => some (.sizeOfT t)
  | .symbol s => some (.symbol s)
  | .funcSymbol fse => some (.funcSymbol fse)
  | .sync => some .sync
  | .nullPointer => some .nullPointer
  | .newExpr t cnt ini isV =>
    (ExprList.Optimize cnt).bind fun cnt2 =>
      (ExprList.Optimize ini).bind fun ini2 =>
        some (.newExpr t cnt2 ini2 isV)

/-- Modelled from the spec: `ExprList::Optimize` (`expr.h:236`, body not
in `src/`): optimizes every element, returning an `ExprList` (the
return type of the signature in the header is `ExprList *`, not
`Expr *`). -/
def ExprList.Optimize : ExprList → Option ExprList
  | .nil => some .nil
  | .cons e rest =>
    (Expr.Optimize e).bind fun e2 =>
      (ExprList.Optimize rest).bind fun rest2 => some (.cons e2 rest2)
end

/-- Which node kinds can produce an lvalue: the forms denoting addressable
storage (symbol reference, indexing, member access, dereference), per the
`GetLValue` overrides declared in `expr.h`. -/
def Expr.isLValueCapable : Expr → Bool
  | .symbol _ | .index _ _ | .member _ _ _ | .dereference _ => true
  | _ => false

/-- Wrap an expression in a conversion to the target type when its type
differs (the minimal-cast normalization `TypeConvertExpr` applies,
modelled from the spec; body not in `src/`). -/
def castIfNeeded (cur target : Ty) (e : Expr) : Expr :=
  if cur = target then e else .typeCast target e

/-- Modelled from the spec: the node-local step of `UnaryExpr::TypeCheck`
(`expr.h:118`, body not in `src/`): the operand must have atomic type.
The lvalue requirement of the increment/decrement forms and the operand
conversions are not modelled. -/
def Expr.tcUnary (op : UnaryOp) (e : Expr) : Except String Expr :=
  match Expr.getType e with
  | some (.atomic _ _) => .ok (.unary op e)
  | some _ => .error "unary operand must have atomic type"
  | none => .ok (.unary op e)

/-- Modelled from the spec: the node-local step of `BinaryExpr::TypeCheck`
(`expr.h:161`, body not in `src/`): shift operators keep the right
operand type as-is subject to an integer check; every other operator
promotes both operands to the common type of the fixed lattice, wrapping
an operand in a conversion when its type differs.  The operator tag is a
`const` member (`expr.h:164`) and is carried to the rebuilt node
unchanged. -/
def Expr.tcBinary (op : BinOp) (a b : Expr) : Except String Expr :=
  match Expr.getType a, Expr.getType b with
  | some ta, some tb =>
    if op == .Shl || op == .Shr then
      match ta, tb with
      | .atomic bta _, .atomic btb _ =>
        if bta.isIntType && btb.isIntType then .ok (.binary op a b)
        else .error "shift operands must have integer type"
      | _, _ => .error "shift operands must have integer type"
    else if op == .Comma then .ok (.binary op a b)
    else
      match Ty.promote ta tb with
      | some tr =>
        .ok (.binary op (castIfNeeded ta tr a) (castIfNeeded tb tr b))
      | none => .error "illegal operand types for binary operator"
  | _, _ => .ok (.binary op a b)

/-- Modelled from the spec: the node-local step of `AssignExpr::TypeCheck`
(`expr.h:193`, body not in `src/`): the left operand must be an lvalue;
the right operand is converted to the type of the left operand when legal.  The
`const`-qualification check on the target is not modelled. -/
def Expr.tcAssign (op : AssignOp) (a b : Expr) : Except String Expr :=
  if a.isLValueCapable then
    match Expr.getType a, Expr.getType b with
    | some ta, some tb =>
      if ta = tb then .ok (.assign op a b)
      else if CanConvertTypes tb ta then
        .ok (.assign op a (.typeCast ta b))
      else .error "illegal type conversion in assignment"
    | _, _ => .ok (.assign op a b)
  else .error "assignment target is not an lvalue"

/-- Diagnostic emitted for a constant index outside the bounds of a
fixed-size array. -/
def indexOutOfRangeMsg : String := "array index out of range"

/-- Modelled from the spec: the node-local step of `IndexExpr::TypeCheck`
(`expr.h:283`, body not in `src/`): the base must have an indexable
(array or pointer) type and the index an integer type; a compile-time
constant index with a lane outside the bounds of a fixed-size array is a
type-check error. -/
def Expr.tcIndex (b i : Expr) : Except String Expr :=
  match Expr.getType b with
  | some (.array _ n) =>
    match Expr.getType i with
    | some (.atomic bti _) =>
      if bti.isIntType then
        match i with
        | .constExpr c =>
          if c.lanes.any (fun x => decide (x < 0 ∨ (n : Int) ≤ x)) then
            .error indexOutOfRangeMsg
          else .ok (.index b i)
        | _ => .ok (.index b i)
      else .error "array index must have integer type"
    | _ => .error "array index must have integer type"
  | some (.pointer _ _) => .ok (.index b i)
  | some _ => .error "indexing into non-indexable type"
  | none => .ok (.index b i)

mutual
/-- Modelled from the spec: the `TypeCheck` pass (`Expr::TypeCheck`,
`expr.h:92`; bodies not in `src/`).  Each node checks its children and
then applies its node-local rule; a failure carries the diagnostic emitted
at the point of detection and is propagated upward without emitting a
second diagnostic.  Overload resolution inside function-call checking and
the member-access rules rely on unmodelled collaborators and are treated
as identity here; `FunctionSymbolExpr.ResolveOverloads` models resolution
separately. -/
def Expr.TypeCheck : Expr → Except String Expr
  | .unary op e =>
    match Expr.TypeCheck e with
    | .error m => .error m
    | .ok e2 => Expr.tcUnary op e2
  | .binary op a b =>
    match Expr.TypeCheck a with
    | .error m => .error m
    | .ok a2 =>
      match Expr.TypeCheck b with
      | .error m => .error m
      | .ok b2 => Expr.tcBinary op a2 b2
  | .assign op a b =>
    match Expr.TypeCheck a with
    | .error m => .error m
    | .ok a2 =>
      match Expr.TypeCheck b with
      | .error m => .error m
      | .ok b2 => Expr.tcAssign op a2 b2
  | .select t a b =>
    match Expr.TypeCheck t with
    | .error m => .error m
    | .ok t2 =>
      match Expr.TypeCheck a with
      | .error m => .error m
      | .ok a2 =>
        match Expr.TypeCheck b with
        | .error m => .error m
        | .ok b2 => .ok (.select t2 a2 b2)
  | .exprList l =>
    match ExprList.TypeCheck l with
    | .error m => .error m
    | .ok l2 => .ok (.exprList l2)
  | .funcCall f args isLaunch lc =>
    match Expr.TypeCheck f with
    | .error m => .error m
    | .ok f2 =>
      match ExprList.TypeCheck args with
      | .error m => .error m
      | .ok args2 =>
        match ExprList.TypeCheck lc with
        | .error m => .error m
        | .ok lc2 => .ok (.funcCall f2 args2 isLaunch lc2)
  | .index b i =>
    match Expr.TypeCheck b with
    | .error m => .error m
    | .ok b2 =>
      match Expr.TypeCheck i with
      | .error m => .error m
      | .ok i2 => Expr.tcIndex b2 i2
  | .member e ident deref =>
    match Expr.TypeCheck e with
    | .error m => .error m
    | .ok e2 => .ok (.member e2 ident deref)
  | .constExpr c => .ok (.constExpr c)
  | .typeCast t e =>
    match Expr.TypeCheck e with
    | .error m => .error m
    | .ok e2 =>
      match Expr.getType e2 with
      | some te =>
        if CanConvertTypes te t then .ok (.typeCast t e2)
        else .error "illegal type cast"
      | none => .ok (.typeCast t e2)
  | .reference e =>
    match Expr.TypeCheck e with
    | .error m => .error m
    | .ok e2 =>
      if e2.isLValueCapable then .ok (.reference e2)
      else .error "cannot take reference of non-lvalue"
  | .dereference e =>
    match Expr.TypeCheck e with
    | .error m => .error m
    | .ok e2 => .ok (.dereference e2)
  | .addressOf e =>
    match Expr.TypeCheck e with
    | .error m => .error m
    | .ok e2 =>
      if e2.isLValueCapable then .ok (.addressOf e2)
      else .error "cannot take address of non-lvalue"
  | .sizeOfE e =>
    match Expr.TypeCheck e with
    | .error m => .error m
    | .ok e2 => .ok (.sizeOfE e2)
  | .sizeOfT t => .ok (.sizeOfT t)
  | .symbol s => .ok (.symbol s)
  | .funcSymbol fse => .ok (.funcSymbol fse)
  | .sync => .ok .sync
  | .nullPointer => .ok .nullPointer
  | .newExpr t cnt ini isV =>
    match ExprList.TypeCheck cnt with
    | .error m => .error m
    | .ok cnt2 =>
      match ExprList.TypeCheck ini with
      | .error m => .error m
      | .ok ini2 => .ok (.newExpr t cnt2 ini2 isV)

/-- Modelled from the spec: `ExprList::TypeCheck` (`expr.h:237`, body not
in `src/`): checks every element, returning an `ExprList` (the return
type of the signature in the header is `ExprList *`, not `Expr *`). -/
def ExprList.TypeCheck : ExprList → Except String ExprList
  | .nil => .ok .nil
  | .cons e rest =>
    match Expr.TypeCheck e with
    | .error m => .error m
    | .ok e2 =>
      match ExprList.TypeCheck rest with
      | .error m => .error m
      | .ok rest2 => .ok (.cons e2 rest2)
end

theorem wrapU_sub_dvd (b : Nat) (x : Int) : (2 ^ b : Int) ∣ (wrapU b x - x) := by
  have h1 : (2 ^ b : Int) ∣ (x - x % (2 ^ b : Int)) :=
    Int.dvd_sub_of_emod_eq rfl
  have h2 : wrapU b x - x = -(x - x % (2 ^ b : Int)) := by
    unfold wrapU; ring
  rw [h2]
  exact dvd_neg.mpr h1

theorem wrapS_sub_dvd (b : Nat) (x : Int) : (2 ^ b : Int) ∣ (wrapS b x - x) := by
  have h1 : (2 ^ b : Int) ∣
      ((x + 2 ^ (b - 1)) - (x + 2 ^ (b - 1)) % (2 ^ b : Int)) :=
    Int.dvd_sub_of_emod_eq rfl
  have h2 : wrapS b x - x =
      -((x + 2 ^ (b - 1)) - (x + 2 ^ (b - 1)) % (2 ^ b : Int)) := by
    unfold wrapS; ring
  rw [h2]
  exact dvd_neg.mpr h1

theorem wrapU_congr (b : Nat) {x y : Int} (h : (2 ^ b : Int) ∣ (y - x)) :
    wrapU b y = wrapU b x := by
  unfold wrapU
  exact Int.emod_eq_emod_iff_emod_sub_eq_zero.mpr (Int.emod_eq_zero_of_dvd h)

theorem wrapS_congr (b : Nat) {x y : Int} (h : (2 ^ b : Int) ∣ (y - x)) :
    wrapS b y = wrapS b x := by
  unfold wrapS
  have h2 : (y + 2 ^ (b - 1)) % (2 ^ b : Int)
      = (x + 2 ^ (b - 1)) % (2 ^ b : Int) := by
    apply Int.emod_eq_emod_iff_emod_sub_eq_zero.mpr
    apply Int.emod_eq_zero_of_dvd
    have h3 : y + 2 ^ (b - 1) - (x + 2 ^ (b - 1)) = y - x := by ring
    rw [h3]; exact h
  rw [h2]

theorem wrap_sub_dvd (bt : BasicType) (h : bt.isIntType = true) (x : Int) :
    (2 ^ bt.bits : Int) ∣ (wrap bt x - x) := by
  cases bt with
  | bool => simp [BasicType.isIntType] at h
  | int8 => exact wrapS_sub_dvd 8 x
  | uint8 => exact wrapU_sub_dvd 8 x
  | int16 => exact wrapS_sub_dvd 16 x
  | uint16 => exact wrapU_sub_dvd 16 x
  | int32 => exact wrapS_sub_dvd 32 x
  | uint32 => exact wrapU_sub_dvd 32 x
  | int64 => exact wrapS_sub_dvd 64 x
  | uint64 => exact wrapU_sub_dvd 64 x

theorem wrap_congr (bt : BasicType) (h : bt.isIntType = true) {x y : Int}
    (hd : (2 ^ bt.bits : Int) ∣ (y - x)) : wrap bt y = wrap bt x := by
  cases bt with
  | bool => simp [BasicType.isIntType] at h
  | int8 => exact wrapS_congr 8 hd
  | uint8 => exact wrapU_congr 8 hd
  | int16 => exact wrapS_congr 16 hd
  | uint16 => exact wrapU_congr 16 hd
  | int32 => exact wrapS_congr 32 hd
  | uint32 => exact wrapU_congr 32 hd
  | int64 => exact wrapS_congr 64 hd
  | uint64 => exact wrapU_congr 64 hd

theorem wrap_wrap_of_le {n w : BasicType} (hn : n.isIntType = true)
    (hw : w.isIntType = true) (hb : n.bits ≤ w.bits) (x : Int) :
    wrap n (wrap w x) = wrap n x := by
  apply wrap_congr n hn
  exact dvd_trans (pow_dvd_pow 2 hb) (wrap_sub_dvd w hw x)

theorem wrap_idem (bt : BasicType) (x : Int) :
    wrap bt (wrap bt x) = wrap bt x := by
  cases bt with
  | bool => by_cases h : x = 0 <;> simp [wrap, h]
  | int8 => exact @wrap_wrap_of_le .int8 .int8 rfl rfl le_rfl x
  | uint8 => exact @wrap_wrap_of_le .uint8 .uint8 rfl rfl le_rfl x
  | int16 => exact @wrap_wrap_of_le .int16 .int16 rfl rfl le_rfl x
  | uint16 => exact @wrap_wrap_of_le .uint16 .uint16 rfl rfl le_rfl x
  | int32 => exact @wrap_wrap_of_le .int32 .int32 rfl rfl le_rfl x
  | uint32 => exact @wrap_wrap_of_le .uint32 .uint32 rfl rfl le_rfl x
  | int64 => exact @wrap_wrap_of_le .int64 .int64 rfl rfl le_rfl x
  | uint64 => exact @wrap_wrap_of_le .uint64 .uint64 rfl rfl le_rfl x

/-- Claim C4: for a constant of integer representation, converting the lanes to
a wider integer representation with one conversion accessor and converting
the result back to the original narrower representation reproduces the
original lanes exactly (the stored lanes of a well-formed constant are the
in-range values of their representation); and the fixed wraparound rule of
the conversions is stable, so converting the same value repeatedly gives
the same result. -/
theorem ConstExpr_int_conversion_roundtrip (c : ConstExpr)
    (wide : BasicType) (hc : c.bt.isIntType = true)
    (hw : wide.isIntType = true) (hbits : c.bt.bits ≤ wide.bits)
    (hwf : c.wf = true) :
    (ConstExpr.mk wide c.v (c.convertLanes wide false)).convertLanes c.bt
        false = c.lanes ∧
    ∀ x : Int, wrap wide (wrap wide x) = wrap wide x := by
  refine ⟨?_, fun x => wrap_idem wide x⟩
  have hlanes : ∀ x ∈ c.lanes, wrap c.bt x = x := by
    intro x hx
    have h2 := (Bool.and_eq_true _ _ |>.mp hwf).2
    rw [List.all_eq_true] at h2
    exact beq_iff_eq.mp (h2 x hx)
  show ((c.lanes.map (wrap wide)).map (wrap c.bt)) = c.lanes
  rw [List.map_map]
  calc c.lanes.map (wrap c.bt ∘ wrap wide)
      = c.lanes.map id := by
        apply List.map_congr_left
        intro x hx
        show wrap c.bt (wrap wide x) = x
        rw [wrap_wrap_of_le hc hw hbits x]
        exact hlanes x hx
    _ = c.lanes := List.map_id c.lanes

theorem ConstExpr_int_conversion_roundtrip_witness :
    (ConstExpr.mk .uint32 .uniform
        ((ConstExpr.mk .int8 .uniform [-5]).convertLanes .uint32
          false)).convertLanes .int8 false = [-5] :=
  (ConstExpr_int_conversion_roundtrip ⟨.int8, .uniform, [-5]⟩ .uint32
    (by decide) (by decide) (by decide) (by decide)).1

theorem BinOp_isArith_foldable (op : BinOp) (h : op.isArith = true) :
    op.foldable = true := by
  cases op <;> simp_all [BinOp.isArith, BinOp.foldable]

theorem BinOp_isArith_foldResBT (op : BinOp) (h : op.isArith = true)
    (bt : BasicType) : op.foldResBT bt = bt := by
  cases op <;> simp_all [BinOp.isArith, BinOp.foldResBT, BinOp.isComparison]

/-- Claim C1: optimizing a binary arithmetic node whose two operands are
constants of the same representation (and lane structure) yields a
constant node whose lanes are the lane-wise application of the operator to
the operand lanes. -/
theorem BinaryExpr_Optimize_const_fold (op : BinOp) (c0 c1 : ConstExpr)
    (hop : op.isArith = true) (hbt : c0.bt = c1.bt) (hv : c0.v = c1.v) :
    Expr.Optimize (.binary op (.constExpr c0) (.constExpr c1))
      = some (.constExpr ⟨c0.bt, c0.v,
          List.zipWith (op.laneOp c0.bt) c0.lanes c1.lanes⟩) := by
  have hf := BinOp_isArith_foldable op hop
  obtain ⟨bt0, v0, l0⟩ := c0
  obtain ⟨bt1, v1, l1⟩ := c1
  simp only at hbt hv
  subst hbt
  subst hv
  have hr := BinOp_isArith_foldResBT op hop bt0
  simp [Expr.Optimize, Expr.optBinary, Expr.asConst, hf, BinOp.foldConst, hr]

theorem BinaryExpr_Optimize_const_fold_witness :
    Expr.Optimize (.binary .Add (.constExpr ⟨.int32, .uniform, [2]⟩)
        (.constExpr ⟨.int32, .uniform, [3]⟩))
      = some (.constExpr ⟨.int32, .uniform, [5]⟩) := by
  have h := BinaryExpr_Optimize_const_fold .Add ⟨.int32, .uniform, [2]⟩
    ⟨.int32, .uniform, [3]⟩ rfl rfl rfl
  rw [h]
  norm_num [BinOp.laneOp, wrap, wrapS, BasicType.signed, BasicType.bits]

theorem ty_laneCount_pos (t : Ty) : 0 < t.laneCount := by
  cases t with
  | atomic bt v => cases v <;> simp [Ty.laneCount, Variability.laneCount,
      targetVectorWidth]
  | pointer v e => cases v <;> simp [Ty.laneCount, Variability.laneCount,
      targetVectorWidth]
  | reference e => simp [Ty.laneCount]
  | array e n => simp [Ty.laneCount]
  | void => simp [Ty.laneCount]

/-- Claim C5: for every pointer-compatible target type, `GetConstant` on a
null-pointer literal returns a zero-valued constant (with at least one
lane), never the absence indicator. -/
theorem NullPointerExpr_GetConstant_zero (ty : Ty)
    (h : ty.isPointerCompatible = true) :
    ∃ c : ConstantVal, NullPointerExpr.GetConstant ty = some c ∧
      c.lanes ≠ [] ∧ ∀ x ∈ c.lanes, x = 0 := by
  refine ⟨⟨List.replicate ty.laneCount 0⟩, ?_, ?_, ?_⟩
  · simp [NullPointerExpr.GetConstant, h]
  · intro hnil
    have h2 := congrArg List.length hnil
    have h3 := ty_laneCount_pos ty
    simp at h2
    omega
  · intro x hx
    exact List.eq_of_mem_replicate hx

theorem NullPointerExpr_GetConstant_zero_witness :
    ∃ c : ConstantVal,
      NullPointerExpr.GetConstant (.pointer .uniform .void) = some c ∧
      c.lanes ≠ [] ∧ ∀ x ∈ c.lanes, x = 0 :=
  NullPointerExpr_GetConstant_zero (.pointer .uniform .void) rfl

theorem argsMatch_exact_eq (argTypes : List Ty) (flags : List Bool)
    (ps : List Ty) :
    argsMatch .exact argTypes flags ps = decide (ps = argTypes) := by
  induction argTypes generalizing flags ps with
  | nil => cases ps <;> simp [argsMatch]
  | cons a as ih =>
    cases ps with
    | nil => simp [argsMatch]
    | cons p ps2 =>
      simp only [argsMatch, paramMatches, ih]
      rcases Decidable.em (a = p) with h1 | h1
      · subst h1
        simp
      · have h2 : ¬p = a := fun h => h1 h.symm
        simp [h1, h2]

theorem tryResolvePass_exact (cands : List FuncSym) (argTypes : List Ty)
    (flags : List Bool) :
    tryResolvePass .exact cands argTypes flags
      = cands.filter (fun f => decide (f.paramTypes = argTypes)) := by
  unfold tryResolvePass
  apply List.filter_congr
  intro f _
  exact argsMatch_exact_eq argTypes flags f.paramTypes

/-- Claim C2: with the matching passes tried in their fixed order, argument
types exactly equal to the declared parameter types of exactly one
candidate
resolve in the first (exact-match) pass with that candidate, whatever the
null-argument flags are. -/
theorem ResolveOverloads_exact_first_pass (cands : List FuncSym)
    (argTypes : List Ty) (flags : List Bool) (f : FuncSym)
    (h : cands.filter (fun g => decide (g.paramTypes = argTypes)) = [f]) :
    resolveOverloadsPure cands argTypes flags = .success f := by
  unfold resolveOverloadsPure
  rw [tryResolvePass_exact, h]

theorem ResolveOverloads_exact_first_pass_witness :
    resolveOverloadsPure
      [⟨"f", [Ty.atomic .int64 .uniform]⟩,
       ⟨"f", [Ty.atomic .int32 .uniform]⟩]
      [Ty.atomic .int32 .uniform] []
      = .success ⟨"f", [Ty.atomic .int32 .uniform]⟩ :=
  ResolveOverloads_exact_first_pass _ _ _ _ (by decide)

/-- Claim C3: a `ResolveOverloads` call on an unchanged candidate set is
deterministic and memoized: the first call caches its outcome on the node,
and a repeated call with the same argument types returns the same result
and the same state, emits no further diagnostic, and leaves
`GetMatchingFunction` unchanged.  The hypothesis is the constructor
invariant (`expr.h:617`): a node that has not tried to resolve yet holds
no matching function. -/
theorem ResolveOverloads_cached_deterministic (fse : FunctionSymbolExpr)
    (argTypes : List Ty) (flags : List Bool)
    (hinv : fse.triedToResolve = false → fse.matchingFunc = none) :
    ((fse.ResolveOverloads argTypes flags).state.ResolveOverloads argTypes
        flags).returned = (fse.ResolveOverloads argTypes flags).returned ∧
    ((fse.ResolveOverloads argTypes flags).state.ResolveOverloads argTypes
        flags).state = (fse.ResolveOverloads argTypes flags).state ∧
    ((fse.ResolveOverloads argTypes flags).state.ResolveOverloads argTypes
        flags).diagnostics = 0 ∧
    ((fse.ResolveOverloads argTypes flags).state.ResolveOverloads argTypes
        flags).state.GetMatchingFunction
      = (fse.ResolveOverloads argTypes flags).state.GetMatchingFunction := by
  cases htried : fse.triedToResolve with
  | true =>
    simp [FunctionSymbolExpr.ResolveOverloads, htried]
  | false =>
    have hmf := hinv htried
    cases hres : resolveOverloadsPure fse.candidateFunctions argTypes flags
      <;> simp [FunctionSymbolExpr.ResolveOverloads, htried, hres, hmf,
        FunctionSymbolExpr.GetMatchingFunction]

theorem ResolveOverloads_cached_deterministic_witness :
    (((FunctionSymbolExpr.make "f"
        [⟨"f", [Ty.atomic .int32 .uniform]⟩]).ResolveOverloads
          [Ty.atomic .int32 .uniform] []).state.ResolveOverloads
            [Ty.atomic .int32 .uniform] []).state
      = ((FunctionSymbolExpr.make "f"
        [⟨"f", [Ty.atomic .int32 .uniform]⟩]).ResolveOverloads
          [Ty.atomic .int32 .uniform] []).state :=
  (ResolveOverloads_cached_deterministic
    (FunctionSymbolExpr.make "f" [⟨"f", [Ty.atomic .int32 .uniform]⟩])
    [Ty.atomic .int32 .uniform] [] (fun _ => rfl)).2.1

mutual
theorem opt_total_expr : (e : Expr) → ∃ e2, Expr.Optimize e = some e2
  | .unary op e0 => by
    obtain ⟨e2, h⟩ := opt_total_expr e0
    exact ⟨.unary op e2, by simp [Expr.Optimize, h]⟩
  | .binary op a b => by
    obtain ⟨a2, ha⟩ := opt_total_expr a
    obtain ⟨b2, hb⟩ := opt_total_expr b
    exact ⟨Expr.optBinary op a2 b2, by simp [Expr.Optimize, ha, hb]⟩
  | .assign op a b => by
    obtain ⟨a2, ha⟩ := opt_total_expr a
    obtain ⟨b2, hb⟩ := opt_total_expr b
    exact ⟨.assign op a2 b2, by simp [Expr.Optimize, ha, hb]⟩
  | .select t a b => by
    obtain ⟨t2, ht⟩ := opt_total_expr t
    obtain ⟨a2, ha⟩ := opt_total_expr a
    obtain ⟨b2, hb⟩ := opt_total_expr b
    exact ⟨Expr.optSelect t2 a2 b2, by simp [Expr.Optimize, ht, ha, hb]⟩
  | .exprList l => by
    obtain ⟨l2, hl⟩ := opt_total_list l
    exact ⟨.exprList l2, by simp [Expr.Optimize, hl]⟩
  | .funcCall f args isL lc => by
    obtain ⟨f2, hf⟩ := opt_total_expr f
    obtain ⟨args2, ha⟩ := opt_total_list args
    obtain ⟨lc2, hl⟩ := opt_total_list lc
    exact ⟨.funcCall f2 args2 isL lc2, by simp [Expr.Optimize, hf, ha, hl]⟩
  | .index b i => by
    obtain ⟨b2, hb⟩ := opt_total_expr b
    obtain ⟨i2, hi⟩ := opt_total_expr i
    exact ⟨.index b2 i2, by simp [Expr.Optimize, hb, hi]⟩
  | .member e0 ident deref => by
    obtain ⟨e2, h⟩ := opt_total_expr e0
    exact ⟨.member e2 ident deref, by simp [Expr.Optimize, h]⟩
  | .constExpr c => ⟨.constExpr c, by simp [Expr.Optimize]⟩
  | .typeCast t e0 => by
    obtain ⟨e2, h⟩ := opt_total_expr e0
    exact ⟨Expr.optCast t e2, by simp [Expr.Optimize, h]⟩
  | .reference e0 => by
    obtain ⟨e2, h⟩ := opt_total_expr e0
    exact ⟨.reference e2, by simp [Expr.Optimize, h]⟩
  | .dereference e0 => by
    obtain ⟨e2, h⟩ := opt_total_expr e0
    exact ⟨.dereference e2, by simp [Expr.Optimize, h]⟩
  | .addressOf e0 => by
    obtain ⟨e2, h⟩ := opt_total_expr e0
    exact ⟨.addressOf e2, by simp [Expr.Optimize, h]⟩
  | .sizeOfE e0 => by
    obtain ⟨e2, h⟩ := opt_total_expr e0
    exact ⟨.sizeOfE e2, by simp [Expr.Optimize, h]⟩
  | .sizeOfT t => ⟨.sizeOfT t, by simp [Expr.Optimize]⟩
  | .symbol s => ⟨.symbol s, by simp [Expr.Optimize]⟩
  | .funcSymbol fse => ⟨.funcSymbol fse, by simp [Expr.Optimize]⟩
  | .sync => ⟨.sync, by simp [Expr.Optimize]⟩
  | .nullPointer => ⟨.nullPointer, by simp [Expr.Optimize]⟩
  | .newExpr t cnt ini isV => by
    obtain ⟨cnt2, hc⟩ := opt_total_list cnt
    obtain ⟨ini2, hi⟩ := opt_total_list ini
    exact ⟨.newExpr t cnt2 ini2 isV, by simp [Expr.Optimize, hc, hi]⟩

theorem opt_total_list : (l : ExprList) → ∃ l2,
    ExprList.Optimize l = some l2
  | .nil => ⟨.nil, by simp [ExprList.Optimize]⟩
  | .cons e rest => by
    obtain ⟨e2, he⟩ := opt_total_expr e
    obtain ⟨r2, hr⟩ := opt_total_list rest
    exact ⟨.cons e2 r2, by simp [ExprList.Optimize, he, hr]⟩
end

theorem optBinary_fix (op : BinOp) {a b : Expr}
    (ha : Expr.Optimize a = some a) (hb : Expr.Optimize b = some b) :
    Expr.Optimize (Expr.optBinary op a b) = some (Expr.optBinary op a b) := by
  rcases h1 : Expr.asConst a with _ | c0
  · simp [Expr.optBinary, h1, Expr.Optimize, ha, hb]
  · rcases h2 : Expr.asConst b with _ | c1
    · simp [Expr.optBinary, h1, h2, Expr.Optimize, ha, hb]
    · by_cases hcond :
        (op.foldable && c0.bt == c1.bt && c0.v == c1.v) = true
      · simp [Expr.optBinary, h1, h2, hcond, Expr.Optimize]
      · simp [Expr.optBinary, h1, h2, hcond, Expr.Optimize, ha, hb]
        simpa using hcond

theorem optSelect_fix {t a b : Expr} (ht : Expr.Optimize t = some t)
    (ha : Expr.Optimize a = some a) (hb : Expr.Optimize b = some b) :
    Expr.Optimize (Expr.optSelect t a b) = some (Expr.optSelect t a b) := by
  rcases h1 : Expr.asConst t with _ | c
  · simp [Expr.optSelect, h1, Expr.Optimize, ht, ha, hb]
  · by_cases hc : (c.bt == .bool && c.v == .uniform) = true
    · by_cases hl : c.lanes.head?.getD 0 = 0
      · simp [Expr.optSelect, h1, hc, hl, hb]
      · simp [Expr.optSelect, h1, hc, hl, ha]
    · simp [Expr.optSelect, h1, hc, Expr.Optimize, ht, ha, hb]
      intro hb1 hv1
      exact absurd (by simp [hb1, hv1]) hc

theorem optCast_fix (ty : Ty) {e : Expr}
    (he : Expr.Optimize e = some e) :
    Expr.Optimize (Expr.optCast ty e) = some (Expr.optCast ty e) := by
  rcases h1 : Expr.asConst e with _ | c
  · simp [Expr.optCast, h1, Expr.Optimize, he]
  · rcases h2 : castFoldConst ty c with _ | c2
    · simp [Expr.optCast, h1, h2, Expr.Optimize, he]
    · simp [Expr.optCast, h1, h2, Expr.Optimize]

mutual
theorem opt_fix_expr : (e e2 : Expr) → Expr.Optimize e = some e2 →
    Expr.Optimize e2 = some e2
  | .unary op e0, e2, h => by
    simp only [Expr.Optimize, Option.bind_eq_some, Option.some.injEq] at h
    obtain ⟨a2, ha, rfl⟩ := h
    simp [Expr.Optimize, opt_fix_expr e0 a2 ha]
  | .binary op a b, e2, h => by
    simp only [Expr.Optimize, Option.bind_eq_some, Option.some.injEq] at h
    obtain ⟨a2, ha, b2, hb, rfl⟩ := h
    exact optBinary_fix op (opt_fix_expr a a2 ha) (opt_fix_expr b b2 hb)
  | .assign op a b, e2, h => by
    simp only [Expr.Optimize, Option.bind_eq_some, Option.some.injEq] at h
    obtain ⟨a2, ha, b2, hb, rfl⟩ := h
    simp [Expr.Optimize, opt_fix_expr a a2 ha, opt_fix_expr b b2 hb]
  | .select t a b, e2, h => by
    simp only [Expr.Optimize, Option.bind_eq_some, Option.some.injEq] at h
    obtain ⟨t2, ht, a2, ha, b2, hb, rfl⟩ := h
    exact optSelect_fix (opt_fix_expr t t2 ht) (opt_fix_expr a a2 ha)
      (opt_fix_expr b b2 hb)
  | .exprList l, e2, h => by
    simp only [Expr.Optimize, Option.bind_eq_some, Option.some.injEq] at h
    obtain ⟨l2, hl, rfl⟩ := h
    simp [Expr.Optimize, opt_fix_list l l2 hl]
  | .funcCall f args isL lc, e2, h => by
    simp only [Expr.Optimize, Option.bind_eq_some, Option.some.injEq] at h
    obtain ⟨f2, hf, args2, ha, lc2, hl, rfl⟩ := h
    simp [Expr.Optimize, opt_fix_expr f f2 hf, opt_fix_list args args2 ha,
      opt_fix_list lc lc2 hl]
  | .index b i, e2, h => by
    simp only [Expr.Optimize, Option.bind_eq_some, Option.some.injEq] at h
    obtain ⟨b2, hb, i2, hi, rfl⟩ := h
    simp [Expr.Optimize, opt_fix_expr b b2 hb, opt_fix_expr i i2 hi]
  | .member e0 ident deref, e2, h => by
    simp only [Expr.Optimize, Option.bind_eq_some, Option.some.injEq] at h
    obtain ⟨a2, ha, rfl⟩ := h
    simp [Expr.Optimize, opt_fix_expr e0 a2 ha]
  | .constExpr c, e2, h => by
    simp only [Expr.Optimize, Option.some.injEq] at h
    subst h
    simp [Expr.Optimize]
  | .typeCast t e0, e2, h => by
    simp only [Expr.Optimize, Option.bind_eq_some, Option.some.injEq] at h
    obtain ⟨a2, ha, rfl⟩ := h
    exact optCast_fix t (opt_fix_expr e0 a2 ha)
  | .reference e0, e2, h => by
    simp only [Expr.Optimize, Option.bind_eq_some, Option.some.injEq] at h
    obtain ⟨a2, ha, rfl⟩ := h
    simp [Expr.Optimize, opt_fix_expr e0 a2 ha]
  | .dereference e0, e2, h => by
    simp only [Expr.Optimize, Option.bind_eq_some, Option.some.injEq] at h
    obtain ⟨a2, ha, rfl⟩ := h
    simp [Expr.Optimize, opt_fix_expr e0 a2 ha]
  | .addressOf e0, e2, h => by
    simp only [Expr.Optimize, Option.bind_eq_some, Option.some.injEq] at h
    obtain ⟨a2, ha, rfl⟩ := h
    simp [Expr.Optimize, opt_fix_expr e0 a2 ha]
  | .sizeOfE e0, e2, h => by
    simp only [Expr.Optimize, Option.bind_eq_some, Option.some.injEq] at h
    obtain ⟨a2, ha, rfl⟩ := h
    simp [Expr.Optimize, opt_fix_expr e0 a2 ha]
  | .sizeOfT t, e2, h => by
    simp only [Expr.Optimize, Option.some.injEq] at h
    subst h
    simp [Expr.Optimize]
  | .symbol s, e2, h => by
    simp only [Expr.Optimize, Option.some.injEq] at h
    subst h
    simp [Expr.Optimize]
  | .funcSymbol fse, e2, h => by
    simp only [Expr.Optimize, Option.some.injEq] at h
    subst h
    simp [Expr.Optimize]
  | .sync, e2, h => by
    simp only [Expr.Optimize, Option.some.injEq] at h
    subst h
    simp [Expr.Optimize]
  | .nullPointer, e2, h => by
    simp only [Expr.Optimize, Option.some.injEq] at h
    subst h
    simp [Expr.Optimize]
  | .newExpr t cnt ini isV, e2, h => by
    simp only [Expr.Optimize, Option.bind_eq_some, Option.some.injEq] at h
    obtain ⟨cnt2, hc, ini2, hi, rfl⟩ := h
    simp [Expr.Optimize, opt_fix_list cnt cnt2 hc,
      opt_fix_list ini ini2 hi]

theorem opt_fix_list : (l l2 : ExprList) →
    ExprList.Optimize l = some l2 → ExprList.Optimize l2 = some l2
  | .nil, l2, h => by
    simp only [ExprList.Optimize, Option.some.injEq] at h
    subst h
    simp [ExprList.Optimize]
  | .cons e rest, l2, h => by
    simp only [ExprList.Optimize, Option.bind_eq_some, Option.some.injEq] at h
    obtain ⟨e2, he, r2, hr, rfl⟩ := h
    simp [ExprList.Optimize, opt_fix_expr e e2 he,
      opt_fix_list rest r2 hr]
end

/-- Claim C8: `Optimize` always succeeds (identity when no simplification
applies) and is idempotent: re-optimizing the node a successful
`Optimize` returned yields that node back unchanged. -/
theorem Optimize_idempotent (e : Expr) :
    ∃ e2, Expr.Optimize e = some e2 ∧ Expr.Optimize e2 = some e2 := by
  obtain ⟨e2, h⟩ := opt_total_expr e
  exact ⟨e2, h, opt_fix_expr e e2 h⟩

/-- Claim C6: optimizing a select whose condition is a uniform compile-time
constant boolean replaces the node by the corresponding branch outright
(the optimized true branch when the condition is true, the optimized false
branch when it is false), discarding the other branch. -/
theorem SelectExpr_Optimize_uniform_const_cond (c : ConstExpr)
    (e1 e2 : Expr) (hbt : c.bt = .bool) (hv : c.v = .uniform) :
    (c.lanes.headD 0 ≠ 0 →
      Expr.Optimize (.select (.constExpr c) e1 e2) = Expr.Optimize e1) ∧
    (c.lanes.headD 0 = 0 →
      Expr.Optimize (.select (.constExpr c) e1 e2) = Expr.Optimize e2) := by
  obtain ⟨a2, ha⟩ := opt_total_expr e1
  obtain ⟨b2, hb⟩ := opt_total_expr e2
  constructor
  · intro hl
    rw [List.headD_eq_head?] at hl
    simp [Expr.Optimize, ha, hb, Expr.optSelect, Expr.asConst, hbt, hv, hl]
  · intro hl
    rw [List.headD_eq_head?] at hl
    simp [Expr.Optimize, ha, hb, Expr.optSelect, Expr.asConst, hbt, hv, hl]

theorem SelectExpr_Optimize_uniform_const_cond_witness :
    Expr.Optimize (.select (.constExpr ⟨.bool, .uniform, [1]⟩)
        (.constExpr ⟨.int32, .uniform, [7]⟩) .sync)
      = Expr.Optimize (.constExpr ⟨.int32, .uniform, [7]⟩) :=
  (SelectExpr_Optimize_uniform_const_cond ⟨.bool, .uniform, [1]⟩
    (.constExpr ⟨.int32, .uniform, [7]⟩) .sync rfl rfl).1 (by decide)

theorem tcUnary_shape (op : UnaryOp) (e r : Expr)
    (h : Expr.tcUnary op e = .ok r) : ∃ x, r = .unary op x := by
  unfold Expr.tcUnary at h
  repeat' split at h
  all_goals
    first
      | (injection h with h2
         exact ⟨_, h2.symm⟩)
      | simp at h

theorem tcBinary_shape (op : BinOp) (a b r : Expr)
    (h : Expr.tcBinary op a b = .ok r) : ∃ x y, r = .binary op x y := by
  unfold Expr.tcBinary at h
  repeat' split at h
  all_goals
    first
      | (injection h with h2
         exact ⟨_, _, h2.symm⟩)
      | simp at h

theorem tcAssign_shape (op : AssignOp) (a b r : Expr)
    (h : Expr.tcAssign op a b = .ok r) : ∃ x y, r = .assign op x y := by
  unfold Expr.tcAssign at h
  repeat' split at h
  all_goals
    first
      | (injection h with h2
         exact ⟨_, _, h2.symm⟩)
      | simp at h

theorem optBinary_shape (op : BinOp) (a b : Expr) (op2 : BinOp)
    (x y : Expr) (h : Expr.optBinary op a b = .binary op2 x y) :
    op2 = op := by
  unfold Expr.optBinary at h
  repeat' split at h
  all_goals
    first
      | (injection h with h1 h2 h3
         exact h1.symm)
      | injection h

/-- Claim C9: the operator tag of a unary, binary or assignment node is fixed at
construction (`const Op op` at `expr.h:121`, `expr.h:164`, `expr.h:196`):
whenever `TypeCheck` or `Optimize` returns a node of the same kind, that
node carries the operator the original node was constructed with. -/
theorem op_const_through_passes :
    (∀ (op : UnaryOp) (e : Expr) (op2 : UnaryOp) (e2 : Expr),
      Expr.TypeCheck (.unary op e) = .ok (.unary op2 e2) → op2 = op) ∧
    (∀ (op : BinOp) (a b : Expr) (op2 : BinOp) (a2 b2 : Expr),
      Expr.TypeCheck (.binary op a b) = .ok (.binary op2 a2 b2) →
        op2 = op) ∧
    (∀ (op : AssignOp) (a b : Expr) (op2 : AssignOp) (a2 b2 : Expr),
      Expr.TypeCheck (.assign op a b) = .ok (.assign op2 a2 b2) →
        op2 = op) ∧
    (∀ (op : UnaryOp) (e : Expr) (op2 : UnaryOp) (e2 : Expr),
      Expr.Optimize (.unary op e) = some (.unary op2 e2) → op2 = op) ∧
    (∀ (op : BinOp) (a b : Expr) (op2 : BinOp) (a2 b2 : Expr),
      Expr.Optimize (.binary op a b) = some (.binary op2 a2 b2) →
        op2 = op) ∧
    (∀ (op : AssignOp) (a b : Expr) (op2 : AssignOp) (a2 b2 : Expr),
      Expr.Optimize (.assign op a b) = some (.assign op2 a2 b2) →
        op2 = op) := by
  refine ⟨?_, ?_, ?_, ?_, ?_, ?_⟩
  · intro op e op2 e2 h
    simp only [Expr.TypeCheck] at h
    cases hte : Expr.TypeCheck e with
    | error m => simp [hte] at h
    | ok e1 =>
      simp only [hte] at h
      obtain ⟨x, hx⟩ := tcUnary_shape op e1 _ h
      rw [Expr.unary.injEq] at hx
      exact hx.1
  · intro op a b op2 a2 b2 h
    simp only [Expr.TypeCheck] at h
    cases hta : Expr.TypeCheck a with
    | error m => simp [hta] at h
    | ok x1 =>
      cases htb : Expr.TypeCheck b with
      | error m => simp [hta, htb] at h
      | ok y1 =>
        simp only [hta, htb] at h
        obtain ⟨x, y, hx⟩ := tcBinary_shape op x1 y1 _ h
        rw [Expr.binary.injEq] at hx
        exact hx.1
  · intro op a b op2 a2 b2 h
    simp only [Expr.TypeCheck] at h
    cases hta : Expr.TypeCheck a with
    | error m => simp [hta] at h
    | ok x1 =>
      cases htb : Expr.TypeCheck b with
      | error m => simp [hta, htb] at h
      | ok y1 =>
        simp only [hta, htb] at h
        obtain ⟨x, y, hx⟩ := tcAssign_shape op x1 y1 _ h
        rw [Expr.assign.injEq] at hx
        exact hx.1
  · intro op e op2 e2 h
    simp only [Expr.Optimize, Option.bind_eq_some, Option.some.injEq] at h
    obtain ⟨x, hx, heq⟩ := h
    rw [Expr.unary.injEq] at heq
    exact heq.1.symm
  · intro op a b op2 a2 b2 h
    simp only [Expr.Optimize, Option.bind_eq_some, Option.some.injEq] at h
    obtain ⟨x, hx, y, hy, heq⟩ := h
    exact optBinary_shape op x y op2 a2 b2 heq
  · intro op a b op2 a2 b2 h
    simp only [Expr.Optimize, Option.bind_eq_some, Option.some.injEq] at h
    obtain ⟨x, hx, y, hy, heq⟩ := h
    rw [Expr.assign.injEq] at heq
    exact heq.1.symm

theorem op_const_through_passes_witness :
    (UnaryOp.Negate = UnaryOp.Negate) ∧ (BinOp.Comma = BinOp.Comma) ∧
    (AssignOp.Assign = AssignOp.Assign) ∧
    (UnaryOp.BitNot = UnaryOp.BitNot) ∧ (BinOp.Sub = BinOp.Sub) ∧
    (AssignOp.AddAssign = AssignOp.AddAssign) := by
  obtain ⟨h1, h2, h3, h4, h5, h6⟩ := op_const_through_passes
  refine ⟨?_, ?_, ?_, ?_, ?_, ?_⟩
  · exact h1 .Negate (.constExpr ⟨.int32, .uniform, [2]⟩) .Negate
      (.constExpr ⟨.int32, .uniform, [2]⟩) (by rfl)
  · exact h2 .Comma (.constExpr ⟨.int32, .uniform, [2]⟩)
      (.constExpr ⟨.int32, .uniform, [2]⟩) .Comma
      (.constExpr ⟨.int32, .uniform, [2]⟩)
      (.constExpr ⟨.int32, .uniform, [2]⟩) (by rfl)
  · exact h3 .Assign (.symbol ⟨"x", .atomic .int32 .uniform⟩)
      (.constExpr ⟨.int32, .uniform, [2]⟩) .Assign
      (.symbol ⟨"x", .atomic .int32 .uniform⟩)
      (.constExpr ⟨.int32, .uniform, [2]⟩) (by rfl)
  · exact h4 .BitNot .sync .BitNot .sync (by rfl)
  · exact h5 .Sub .sync .sync .Sub .sync .sync (by rfl)
  · exact h6 .AddAssign .sync .sync .AddAssign .sync .sync (by rfl)

/-- Claim C10: the `Optimize` and `TypeCheck` passes never rewrite an expression
list into a node of a different kind: a successful pass over an `ExprList`
node always returns an `ExprList` node, produced by the list-typed pass of
the `ExprList *` signatures of the header (`expr.h:236`). -/
theorem ExprList_passes_preserve_kind :
    (∀ (l : ExprList) (e2 : Expr), Expr.Optimize (.exprList l) = some e2 →
      ∃ l2, e2 = .exprList l2 ∧ ExprList.Optimize l = some l2) ∧
    (∀ (l : ExprList) (e2 : Expr), Expr.TypeCheck (.exprList l) = .ok e2 →
      ∃ l2, e2 = .exprList l2 ∧ ExprList.TypeCheck l = .ok l2) := by
  constructor
  · intro l e2 h
    simp only [Expr.Optimize, Option.bind_eq_some, Option.some.injEq] at h
    obtain ⟨l2, hl, rfl⟩ := h
    exact ⟨l2, rfl, hl⟩
  · intro l e2 h
    simp only [Expr.TypeCheck] at h
    cases htc : ExprList.TypeCheck l with
    | error m => simp [htc] at h
    | ok l2 =>
      simp only [htc] at h
      injection h with h2
      exact ⟨l2, h2.symm, rfl⟩

theorem ExprList_passes_preserve_kind_witness :
    ∃ l2, (Expr.exprList .nil) = Expr.exprList l2 ∧
      ExprList.Optimize .nil = some l2 :=
  ExprList_passes_preserve_kind.1 .nil (.exprList .nil) rfl

/-- Claim C7: type checking an index expression whose base has fixed-size array
type of size `n` and whose index is a compile-time constant with a lane at
least `n` emits the out-of-range diagnostic and returns the failure
signal, never a successfully checked node. -/
theorem IndexExpr_TypeCheck_out_of_range (base b2 : Expr) (elt : Ty)
    (n : Nat) (c : ConstExpr) (hb : Expr.TypeCheck base = .ok b2)
    (ht : Expr.getType b2 = some (.array elt n))
    (hint : c.bt.isIntType = true)
    (hoob : ∃ x ∈ c.lanes, (n : Int) ≤ x) :
    Expr.TypeCheck (.index base (.constExpr c))
      = .error indexOutOfRangeMsg := by
  simp only [Expr.TypeCheck, hb]
  have hct : Expr.getType (.constExpr c) = some (.atomic c.bt c.v) := rfl
  have hany : ∃ x ∈ c.lanes, x < 0 ∨ (n : Int) ≤ x := by
    obtain ⟨x, hx, hnx⟩ := hoob
    exact ⟨x, hx, Or.inr hnx⟩
  simp [Expr.tcIndex, ht, hct, hint, hany]

theorem IndexExpr_TypeCheck_out_of_range_witness :
    Expr.TypeCheck (.index
        (.symbol ⟨"a", .array (.atomic .int32 .uniform) 4⟩)
        (.constExpr ⟨.int32, .uniform, [4]⟩))
      = .error indexOutOfRangeMsg :=
  IndexExpr_TypeCheck_out_of_range
    (.symbol ⟨"a", .array (.atomic .int32 .uniform) 4⟩)
    (.symbol ⟨"a", .array (.atomic .int32 .uniform) 4⟩)
    (.atomic .int32 .uniform) 4 ⟨.int32, .uniform, [4]⟩ rfl rfl rfl
    ⟨4, by decide, by decide⟩
